import Mathlib

/-!
# go-chat-app: shallow embedding and verification

This file embeds the behaviour of `src/main.go` (and the identical chat core in
`src/Go Chat Application/main.go`) of the `param85584/go-chat-app` repository and
proves properties of the embedded definitions.

## Embedding conventions

* A websocket connection handle (`*websocket.Conn`, used only as a map key and
  as the target of `WriteJSON` / `Close`) is modelled as an opaque natural
  number `Conn`.
* The package-level `clients` map (`map[*websocket.Conn]bool`, every stored
  value is `true`) is modelled by its key sequence: a `List Conn` in iteration
  order.  Go map keys are distinct, so states reached by the program have
  `Nodup` client lists; theorems that need this take it as a hypothesis.
* The external effects `WriteJSON` (hub → client delivery) and `Close` are
  recorded in ghost logs: `log` collects every successful `WriteJSON` call as
  `(fan-out number, recipient, message)` and `closes` collects every `Close`
  call.  `seq` counts the fan-outs the hub has completed; the Go code has no
  such counter, it only serialises fan-outs by running them one after another
  in the single `handleMessages` loop, which the counter makes observable.
* Whether a `WriteJSON` call fails is an environment choice (the peer's
  transport), so each fan-out takes the list `bad` of connections whose write
  fails during it.  Likewise the outcomes of a reader's `ReadJSON` calls are
  given as a list of `ReadResult`s.
* The task store's `nextID` is a Go `int`, a 64-bit signed integer whose
  increment wraps on overflow (Go defines signed overflow as two's-complement
  wrap-around).  It is modelled as an `Int` kept in `[-2^63, 2^63)` by
  `wrapInt64`, so `nextID++` is `wrapInt64 (nextID + 1)`.
-/

namespace GoChat

/-- `Task` from `main.go`: ID, Title, Description, Status. -/
structure Task where
  id : Int
  title : String
  description : String
  status : String
deriving DecidableEq, Repr

/-- `Message` from `main.go`: Username, Content. -/
structure Message where
  username : String
  content : String
deriving DecidableEq, Repr

/-- Opaque connection handle standing for a `*websocket.Conn` pointer. -/
abbrev Conn := Nat

/-- The package-level mutable state of `main.go`, plus ghost logs for the
externally visible effects (successful `WriteJSON` deliveries and `Close`
calls). -/
structure ServerState where
  /-- `tasks []Task` — the task store, in insertion order. -/
  tasks : List Task
  /-- `nextID int = 1` — the ID counter. -/
  nextID : Int
  /-- Key sequence of the `clients` map, in iteration order. -/
  clients : List Conn
  /-- Ghost log: every `Close()` call issued so far, in order. -/
  closes : List Conn
  /-- Contents of the `broadcast` channel: messages forwarded by readers and
  not yet consumed by the hub, in FIFO order. -/
  broadcastQ : List Message
  /-- Ghost log: every successful `WriteJSON(client, msg)` call, recorded as
  `(fan-out number, recipient, message)`, in order. -/
  log : List (Nat × Conn × Message)
  /-- Number of fan-outs the hub has completed. -/
  seq : Nat
deriving DecidableEq, Repr

/-- A connection is closed once at least one `Close()` has been issued on it. -/
def ServerState.isClosed (s : ServerState) (c : Conn) : Bool :=
  0 < s.closes.count c

/-- `clients[ws] = true` in `handleConnections`: register a client.  On the
key-set view of the map this inserts the key if absent. -/
def registerClient (c : Conn) (s : ServerState) : ServerState :=
  { s with clients := if s.clients.contains c then s.clients else s.clients ++ [c] }

/-- The hub's write-failure eviction in `handleMessages`:
`client.Close(); delete(clients, client)`. -/
def writeFailRemove (c : Conn) (s : ServerState) : ServerState :=
  { s with closes := s.closes ++ [c], clients := s.clients.erase c }

/-- One successful `client.WriteJSON(msg)` in `handleMessages`, recorded in the
delivery log with the current fan-out number. -/
def deliver (c : Conn) (m : Message) (s : ServerState) : ServerState :=
  { s with log := s.log ++ [(s.seq, c, m)] }

/-- One iteration of the fan-out loop body of `handleMessages` for client `c`:
attempt `WriteJSON`; on error, `Close` and `delete`.  `bad` is the set of
connections whose write fails during this fan-out. -/
def writeStep (bad : List Conn) (m : Message) (s : ServerState) (c : Conn) : ServerState :=
  if bad.contains c then writeFailRemove c s else deliver c m s

/-- One full fan-out of `handleMessages`: `for client := range clients { ... }`.
The range clause iterates the keys present when the loop runs; the body only
ever deletes the key currently being visited, so every key of the map at
fan-out start is visited exactly once.  The fan-out counter advances at the
end. -/
def fanOut (bad : List Conn) (m : Message) (s : ServerState) : ServerState :=
  let s' := s.clients.foldl (writeStep bad m) s
  { s' with seq := s'.seq + 1 }

/-- A run of the `handleMessages` loop over a finite prefix of the broadcast
channel: each arriving message is fanned out in full before the next is taken,
with `bad` giving the write outcomes for that fan-out. -/
def handleMessages (msgs : List (Message × List Conn)) (s : ServerState) : ServerState :=
  msgs.foldl (fun st p => fanOut p.2 p.1 st) s

/-- Outcome of one `ws.ReadJSON(&msg)` call in a reader. -/
inductive ReadResult where
  | ok (m : Message)
  | fail
deriving DecidableEq, Repr

/-- The read loop of `handleConnections` for connection `c`, given the outcomes
of its successive `ReadJSON` calls: a successful decode forwards the message to
the `broadcast` channel and loops; the first failure runs
`delete(clients, ws); break`, after which the function returns and the deferred
`ws.Close()` fires.  If no outcome is a failure the loop is still blocked in
`ReadJSON`, so neither the delete nor the deferred close has run. -/
def readerLoop (c : Conn) (reads : List ReadResult) (s : ServerState) : ServerState :=
  match reads with
  | [] => s
  | .ok m :: rest => readerLoop c rest { s with broadcastQ := s.broadcastQ ++ [m] }
  | .fail :: _ =>
      { s with clients := s.clients.erase c, closes := s.closes ++ [c] }

/-- The reader's read-failure removal path as a single state transformer:
`delete(clients, ws)` followed by the deferred `ws.Close()` on exit. -/
def readFailRemove (c : Conn) (s : ServerState) : ServerState :=
  { s with clients := s.clients.erase c, closes := s.closes ++ [c] }

/-- The initial package-level state of `main.go`: `tasks` nil, `nextID = 1`,
`clients` empty, no effects issued yet. -/
def initialState : ServerState :=
  { tasks := [], nextID := 1, clients := [], closes := [], broadcastQ := [],
    log := [], seq := 0 }

/-! ## Task store operations (`createTask`, `updateTask`, `deleteTask`) -/

/-- The field-update block of `updateTask`: each of Title, Description, Status
overwrites the stored value exactly when the request supplied it non-empty. -/
def updateTaskFields (stored upd : Task) : Task :=
  { stored with
    title := if upd.title ≠ "" then upd.title else stored.title,
    description := if upd.description ≠ "" then upd.description else stored.description,
    status := if upd.status ≠ "" then upd.status else stored.status }

/-- The search-and-update loop of `updateTask`: walk the task list, update the
first task whose ID matches and stop; `none` is the 404 case (no match). -/
def updateTask (id : Int) (upd : Task) : List Task → Option (List Task)
  | [] => none
  | t :: rest =>
      if t.id = id then some (updateTaskFields t upd :: rest)
      else (updateTask id upd rest).map (t :: ·)

/-- Two's-complement wrap-around of Go's 64-bit signed `int`: the unique value
in `[-2^63, 2^63)` congruent to `n` modulo `2^64`. -/
def wrapInt64 (n : Int) : Int :=
  (n + 2 ^ 63) % 2 ^ 64 - 2 ^ 63

/-- `createTask`: assign `nextID` as the ID, increment `nextID` (a Go `int`,
so the increment wraps on 64-bit overflow), default the status to `"pending"`
when the request supplied an empty status, and append.  Returns the new state
together with the task as echoed to the client. -/
def createTask (t : Task) (s : ServerState) : ServerState × Task :=
  let assigned : Task := { t with id := s.nextID }
  let stored : Task :=
    if assigned.status = "" then { assigned with status := "pending" } else assigned
  ({ s with tasks := s.tasks ++ [stored], nextID := wrapInt64 (s.nextID + 1) }, stored)

/-- The deletion loop of `deleteTask`: remove the first task whose ID matches
(no change when there is no match — the handler then answers 404). -/
def removeFirstTask (id : Int) : List Task → List Task
  | [] => []
  | t :: rest => if t.id = id then rest else t :: removeFirstTask id rest

/-- A task-store request, for reasoning about interleaved handler calls. -/
inductive TaskOp where
  | create (t : Task)
  | remove (id : Int)
deriving DecidableEq, Repr

/-- Apply one task-store request to the state. -/
def applyTaskOp (s : ServerState) : TaskOp → ServerState
  | .create t => (createTask t s).1
  | .remove id => { s with tasks := removeFirstTask id s.tasks }

/-- Run a sequence of task-store requests (each handler call runs under
`tasksMu`, so a run is a sequence of atomic state updates). -/
def runTaskOps (ops : List TaskOp) (s : ServerState) : ServerState :=
  ops.foldl applyTaskOp s

/-- The IDs assigned by the `create` requests of a run, in order. -/
def assignedIDs (ops : List TaskOp) (s : ServerState) : List Int :=
  match ops with
  | [] => []
  | .create t :: rest => (createTask t s).2.id :: assignedIDs rest (createTask t s).1
  | .remove id :: rest => assignedIDs rest (applyTaskOp s (.remove id))

/-- Number of `create` requests in a run. -/
def createCount : List TaskOp → Nat
  | [] => 0
  | .create _ :: rest => createCount rest + 1
  | .remove _ :: rest => createCount rest

/-! ## Lock model

Which mutex each access to shared package-level state holds, read off from the
source: every task handler brackets its access to `tasks`/`nextID` in
`tasksMu.Lock()`/`Unlock()`; the chat code (`handleConnections`,
`handleMessages`) touches the `clients` map with no lock at all. -/

/-- The mutexes declared in `main.go` (`tasksMu` is the only one). -/
inductive Mutex where
  | tasksMu
deriving DecidableEq, Repr

/-- The program's accesses to shared mutable package-level state. -/
inductive SharedAccess where
  /-- `clients[ws] = true` in `handleConnections`. -/
  | registryAdd
  /-- `delete(clients, ws)` on the reader's read-error path. -/
  | registryRemoveOnReadError
  /-- `client.Close(); delete(clients, client)` on the hub's write-error path. -/
  | registryRemoveOnWriteError
  /-- `for client := range clients` in `handleMessages`. -/
  | registryIterate
  /-- `createTask` touching `tasks`/`nextID`. -/
  | taskCreate
  /-- `getTasks` reading `tasks`. -/
  | taskList
  /-- `getTask` reading `tasks`. -/
  | taskGet
  /-- `updateTask` writing `tasks`. -/
  | taskUpdate
  /-- `deleteTask` writing `tasks`. -/
  | taskDelete
deriving DecidableEq, Repr

/-- The locks held while the access runs, as written in the source: the task
handlers all run under `tasksMu`; no chat-side access holds any lock. -/
def locksHeld : SharedAccess → List Mutex
  | .taskCreate | .taskList | .taskGet | .taskUpdate | .taskDelete => [.tasksMu]
  | .registryAdd | .registryRemoveOnReadError
  | .registryRemoveOnWriteError | .registryIterate => []

/-- The accesses that touch the connection registry (the `clients` map). -/
def touchesRegistry : SharedAccess → Bool
  | .registryAdd | .registryRemoveOnReadError
  | .registryRemoveOnWriteError | .registryIterate => true
  | _ => false

/-- An access is internally synchronized when it holds at least one lock. -/
def synchronized (a : SharedAccess) : Prop := locksHeld a ≠ []

instance : DecidablePred synchronized := fun a =>
  decEq (locksHeld a) [] |>.byCases (fun h => .isFalse (by simp [synchronized, h]))
    (fun h => .isTrue h)

/-! ## Basic lemmas about one fan-out -/

/-- The successful deliveries of one fan-out with write failures `bad`, fan-out
number `k` and snapshot `cs`: one log entry per non-failing client, in
iteration order. -/
def fanOutWrites (bad : List Conn) (m : Message) (k : Nat) (cs : List Conn) :
    List (Nat × Conn × Message) :=
  (cs.filter (fun c => !bad.contains c)).map (fun c => (k, c, m))

/-- Erase each element of `ds` from `l`, in order. -/
def eraseAll (l : List Conn) (ds : List Conn) : List Conn :=
  ds.foldl (fun l2 c => l2.erase c) l

@[simp] theorem writeStep_tasks (bad : List Conn) (m : Message) (s : ServerState) (c : Conn) :
    (writeStep bad m s c).tasks = s.tasks := by
  unfold writeStep; split <;> rfl

@[simp] theorem writeStep_nextID (bad : List Conn) (m : Message) (s : ServerState) (c : Conn) :
    (writeStep bad m s c).nextID = s.nextID := by
  unfold writeStep; split <;> rfl

@[simp] theorem writeStep_broadcastQ (bad : List Conn) (m : Message) (s : ServerState) (c : Conn) :
    (writeStep bad m s c).broadcastQ = s.broadcastQ := by
  unfold writeStep; split <;> rfl

@[simp] theorem writeStep_seq (bad : List Conn) (m : Message) (s : ServerState) (c : Conn) :
    (writeStep bad m s c).seq = s.seq := by
  unfold writeStep; split <;> rfl

theorem writeStep_closes (bad : List Conn) (m : Message) (s : ServerState) (c : Conn) :
    (writeStep bad m s c).closes =
      s.closes ++ if bad.contains c then [c] else [] := by
  unfold writeStep; split <;> simp [writeFailRemove, deliver]

theorem writeStep_log (bad : List Conn) (m : Message) (s : ServerState) (c : Conn) :
    (writeStep bad m s c).log =
      s.log ++ if bad.contains c then [] else [(s.seq, c, m)] := by
  unfold writeStep; split <;> simp [writeFailRemove, deliver]

theorem writeStep_clients (bad : List Conn) (m : Message) (s : ServerState) (c : Conn) :
    (writeStep bad m s c).clients =
      if bad.contains c then s.clients.erase c else s.clients := by
  unfold writeStep; split <;> simp [writeFailRemove, deliver]

@[simp] theorem foldl_writeStep_tasks (bad : List Conn) (m : Message) (cs : List Conn)
    (s : ServerState) : (cs.foldl (writeStep bad m) s).tasks = s.tasks := by
  induction cs generalizing s with
  | nil => rfl
  | cons c cs ih => rw [List.foldl_cons, ih, writeStep_tasks]

@[simp] theorem foldl_writeStep_nextID (bad : List Conn) (m : Message) (cs : List Conn)
    (s : ServerState) : (cs.foldl (writeStep bad m) s).nextID = s.nextID := by
  induction cs generalizing s with
  | nil => rfl
  | cons c cs ih => rw [List.foldl_cons, ih, writeStep_nextID]

@[simp] theorem foldl_writeStep_broadcastQ (bad : List Conn) (m : Message) (cs : List Conn)
    (s : ServerState) : (cs.foldl (writeStep bad m) s).broadcastQ = s.broadcastQ := by
  induction cs generalizing s with
  | nil => rfl
  | cons c cs ih => rw [List.foldl_cons, ih, writeStep_broadcastQ]

@[simp] theorem foldl_writeStep_seq (bad : List Conn) (m : Message) (cs : List Conn)
    (s : ServerState) : (cs.foldl (writeStep bad m) s).seq = s.seq := by
  induction cs generalizing s with
  | nil => rfl
  | cons c cs ih => rw [List.foldl_cons, ih, writeStep_seq]

theorem foldl_writeStep_closes (bad : List Conn) (m : Message) (cs : List Conn)
    (s : ServerState) :
    (cs.foldl (writeStep bad m) s).closes =
      s.closes ++ cs.filter (fun c => bad.contains c) := by
  induction cs generalizing s with
  | nil => simp
  | cons c cs ih =>
      rw [List.foldl_cons, ih, writeStep_closes]
      by_cases h : c ∈ bad <;> simp [h, List.filter_cons]

theorem foldl_writeStep_log (bad : List Conn) (m : Message) (cs : List Conn)
    (s : ServerState) :
    (cs.foldl (writeStep bad m) s).log = s.log ++ fanOutWrites bad m s.seq cs := by
  induction cs generalizing s with
  | nil => simp [fanOutWrites]
  | cons c cs ih =>
      rw [List.foldl_cons, ih, writeStep_log, writeStep_seq]
      by_cases h : c ∈ bad <;> simp [h, fanOutWrites, List.filter_cons]

theorem foldl_writeStep_clients (bad : List Conn) (m : Message) (cs : List Conn)
    (s : ServerState) :
    (cs.foldl (writeStep bad m) s).clients =
      eraseAll s.clients (cs.filter (fun c => bad.contains c)) := by
  induction cs generalizing s with
  | nil => rfl
  | cons c cs ih =>
      rw [List.foldl_cons, ih, writeStep_clients]
      by_cases h : c ∈ bad <;> simp [h, List.filter_cons, eraseAll]

@[simp] theorem fanOut_tasks (bad : List Conn) (m : Message) (s : ServerState) :
    (fanOut bad m s).tasks = s.tasks := by
  unfold fanOut; simp

@[simp] theorem fanOut_nextID (bad : List Conn) (m : Message) (s : ServerState) :
    (fanOut bad m s).nextID = s.nextID := by
  unfold fanOut; simp

@[simp] theorem fanOut_broadcastQ (bad : List Conn) (m : Message) (s : ServerState) :
    (fanOut bad m s).broadcastQ = s.broadcastQ := by
  unfold fanOut; simp

@[simp] theorem fanOut_seq (bad : List Conn) (m : Message) (s : ServerState) :
    (fanOut bad m s).seq = s.seq + 1 := by
  unfold fanOut; simp

theorem fanOut_closes (bad : List Conn) (m : Message) (s : ServerState) :
    (fanOut bad m s).closes = s.closes ++ s.clients.filter (fun c => bad.contains c) := by
  unfold fanOut; simp [foldl_writeStep_closes]

theorem fanOut_log (bad : List Conn) (m : Message) (s : ServerState) :
    (fanOut bad m s).log = s.log ++ fanOutWrites bad m s.seq s.clients := by
  unfold fanOut; simp [foldl_writeStep_log]

theorem fanOut_clients (bad : List Conn) (m : Message) (s : ServerState) :
    (fanOut bad m s).clients =
      eraseAll s.clients (s.clients.filter (fun c => bad.contains c)) := by
  unfold fanOut; simp [foldl_writeStep_clients]

/-! ## Lemmas about runs of the hub loop -/

theorem handleMessages_cons (p : Message × List Conn) (msgs : List (Message × List Conn))
    (s : ServerState) :
    handleMessages (p :: msgs) s = handleMessages msgs (fanOut p.2 p.1 s) := rfl

@[simp] theorem handleMessages_tasks (msgs : List (Message × List Conn)) (s : ServerState) :
    (handleMessages msgs s).tasks = s.tasks := by
  induction msgs generalizing s with
  | nil => rfl
  | cons p msgs ih => rw [handleMessages_cons, ih, fanOut_tasks]

@[simp] theorem handleMessages_seq (msgs : List (Message × List Conn)) (s : ServerState) :
    (handleMessages msgs s).seq = s.seq + msgs.length := by
  induction msgs generalizing s with
  | nil => rfl
  | cons p msgs ih => rw [handleMessages_cons, ih, fanOut_seq, List.length_cons]; omega

theorem mem_eraseAll {x : Conn} : ∀ (ds l : List Conn), x ∈ eraseAll l ds → x ∈ l
  | [], _, h => h
  | d :: ds, l, h => List.mem_of_mem_erase (mem_eraseAll ds (l.erase d) h)

theorem fanOut_clients_subset {bad : List Conn} {m : Message} {s : ServerState} {x : Conn}
    (h : x ∈ (fanOut bad m s).clients) : x ∈ s.clients := by
  rw [fanOut_clients] at h
  exact mem_eraseAll _ _ h

theorem handleMessages_clients_subset {msgs : List (Message × List Conn)} {s : ServerState}
    {x : Conn} (h : x ∈ (handleMessages msgs s).clients) : x ∈ s.clients := by
  induction msgs generalizing s with
  | nil => exact h
  | cons p msgs ih =>
      rw [handleMessages_cons] at h
      exact fanOut_clients_subset (ih h)

theorem fanOut_log_entry {bad : List Conn} {m : Message} {s : ServerState}
    {e : Nat × Conn × Message} (h : e ∈ (fanOut bad m s).log) :
    e ∈ s.log ∨ (e.2.1 ∈ s.clients ∧ e.1 = s.seq ∧ e.2.2 = m) := by
  rw [fanOut_log] at h
  rcases List.mem_append.mp h with h | h
  · exact Or.inl h
  · right
    rcases List.mem_map.mp h with ⟨c, hc, rfl⟩
    exact ⟨List.mem_of_mem_filter hc, rfl, rfl⟩

theorem handleMessages_log_entry {msgs : List (Message × List Conn)} {s : ServerState}
    {e : Nat × Conn × Message} (h : e ∈ (handleMessages msgs s).log) :
    e ∈ s.log ∨ e.2.1 ∈ s.clients := by
  induction msgs generalizing s with
  | nil => exact Or.inl h
  | cons p msgs ih =>
      rw [handleMessages_cons] at h
      rcases ih h with h2 | h2
      · rcases fanOut_log_entry h2 with h3 | h3
        · exact Or.inl h3
        · exact Or.inr h3.1
      · exact Or.inr (fanOut_clients_subset h2)

/-- In a duplicate-free list containing `c`, filtering with a key function that
recovers the list element keeps exactly the entry built from `c`. -/
theorem map_filter_key {α : Type} (f : Conn → α) (key : α → Conn)
    (hkey : ∀ x, key (f x) = x) :
    ∀ (l : List Conn), l.Nodup → ∀ c ∈ l,
      (l.map f).filter (fun e => key e == c) = [f c]
  | [], _, c, hc => absurd hc (List.not_mem_nil c)
  | x :: rest, hnd, c, hc => by
      have hx : x ∉ rest := (List.nodup_cons.mp hnd).1
      have hrest : rest.Nodup := (List.nodup_cons.mp hnd).2
      rcases List.mem_cons.mp hc with rfl | hc
      · have hnone : (rest.map f).filter (fun e => key e == c) = [] := by
          rw [List.filter_eq_nil_iff]
          intro e he
          rcases List.mem_map.mp he with ⟨y, hy, rfl⟩
          simp only [hkey]
          exact fun hbeq => hx (beq_iff_eq.mp hbeq ▸ hy)
        simp [List.filter_cons, hkey, hnone]
      · have hne : x ≠ c := fun h => hx (h ▸ hc)
        have := map_filter_key f key hkey rest hrest c hc
        simp [List.filter_cons, hkey, hne, this]

/-! ## Claim theorems -/

/-- C1 (fan-out completeness): when the hub takes a message off the broadcast
channel while the registered connections are `s.clients` and none of their
writes fail, the fan-out leaves the registry unchanged and appends to the
delivery log exactly one entry per registered connection carrying this message;
in particular each registered connection receives exactly one copy (the
deliveries addressed to it within this fan-out are exactly one copy of `m`). -/
theorem c1_fanout_completeness (bad : List Conn) (m : Message) (s : ServerState)
    (hnd : s.clients.Nodup)
    (hok : ∀ c ∈ s.clients, c ∉ bad) :
    (fanOut bad m s).clients = s.clients ∧
    (fanOut bad m s).log = s.log ++ s.clients.map (fun c => (s.seq, c, m)) ∧
    ∀ c ∈ s.clients,
      ((s.clients.map (fun c2 => (s.seq, c2, m))).filter (fun e => e.2.1 == c))
        = [(s.seq, c, m)] := by
  have hfilter : s.clients.filter (fun c => bad.contains c) = [] := by
    rw [List.filter_eq_nil_iff]
    intro a ha
    simpa using hok a ha
  have hfilter2 : s.clients.filter (fun c => !bad.contains c) = s.clients := by
    rw [List.filter_eq_self]
    intro a ha
    simpa using hok a ha
  refine ⟨?_, ?_, ?_⟩
  · rw [fanOut_clients, hfilter]; rfl
  · rw [fanOut_log]; unfold fanOutWrites; rw [hfilter2]
  · intro c hc
    exact map_filter_key (fun c2 => (s.seq, c2, m)) (fun e => e.2.1)
      (fun x => rfl) s.clients hnd c hc

/-- A concrete chat state for witnesses: two registered connections. -/
def wchat : ServerState := { initialState with clients := [0, 1] }

/-- Witness for `c1_fanout_completeness` at two registered connections and no
write failures. -/
theorem c1_fanout_completeness_witness :
    wchat.clients.Nodup ∧ (∀ c ∈ wchat.clients, c ∉ ([] : List Conn)) ∧
    ((fanOut [] ⟨"alice", "hi"⟩ wchat).clients = wchat.clients ∧
     (fanOut [] ⟨"alice", "hi"⟩ wchat).log
        = wchat.log ++ wchat.clients.map (fun c => (wchat.seq, c, ⟨"alice", "hi"⟩)) ∧
     ∀ c ∈ wchat.clients,
       ((wchat.clients.map (fun c2 => (wchat.seq, c2, (⟨"alice", "hi"⟩ : Message)))).filter
           (fun e => e.2.1 == c)) = [(wchat.seq, c, ⟨"alice", "hi"⟩)]) :=
  ⟨by decide, by decide,
    c1_fanout_completeness [] ⟨"alice", "hi"⟩ wchat (by decide) (by decide)⟩

/-- In a duplicate-free list, filtering with a predicate that holds exactly at
the member `C` keeps exactly `[C]`. -/
theorem filter_single_of_nodup {p : Conn → Bool} :
    ∀ {l : List Conn}, l.Nodup → ∀ {C : Conn}, C ∈ l →
      (∀ x ∈ l, p x = true ↔ x = C) → l.filter p = [C]
  | [], _, C, hC, _ => absurd hC (List.not_mem_nil C)
  | x :: rest, hnd, C, hC, hp => by
      have hx : x ∉ rest := (List.nodup_cons.mp hnd).1
      have hrest : rest.Nodup := (List.nodup_cons.mp hnd).2
      rcases List.mem_cons.mp hC with rfl | hC
      · have hpx : p C = true := (hp C (List.mem_cons_self _ _)).mpr rfl
        have hnone : rest.filter p = [] := by
          rw [List.filter_eq_nil_iff]
          intro y hy hpy
          exact hx ((hp y (List.mem_cons_of_mem _ hy)).mp hpy ▸ hy)
        simp [List.filter_cons, hpx, hnone]
      · have hne : x ≠ C := fun h => hx (h ▸ hC)
        have hpx : ¬p x = true := fun h => hne ((hp x (List.mem_cons_self x rest)).mp h)
        have := filter_single_of_nodup hrest hC
          (fun y hy => hp y (List.mem_cons_of_mem x hy))
        simp [List.filter_cons, hpx, this]

/-- C2 (eviction isolation): if during a fan-out the write to connection `C`
fails and no other write fails, then `C` and only `C` is removed from the
registry (the post-registry is exactly the pre-registry with `C` erased), every
other registered connection still gets the message delivered in this same
fan-out (the failure aborts nothing), and no later fan-out ever produces a
delivery addressed to `C`. -/
theorem c2_eviction_isolation (bad : List Conn) (m : Message) (s : ServerState) (C : Conn)
    (hnd : s.clients.Nodup) (hC : C ∈ s.clients)
    (hbad : ∀ c ∈ s.clients, c ∈ bad ↔ c = C) :
    (fanOut bad m s).clients = s.clients.erase C ∧
    (∀ c ∈ s.clients, c ≠ C → (s.seq, c, m) ∈ (fanOut bad m s).log) ∧
    C ∉ (fanOut bad m s).clients ∧
    (∀ msgs e, e ∈ (handleMessages msgs (fanOut bad m s)).log →
       e ∉ (fanOut bad m s).log → e.2.1 ≠ C) := by
  have hfilter : s.clients.filter (fun c => bad.contains c) = [C] := by
    refine filter_single_of_nodup hnd hC (fun x hx => ?_)
    simpa using hbad x hx
  have hclients : (fanOut bad m s).clients = s.clients.erase C := by
    rw [fanOut_clients, hfilter]
    simp [eraseAll]
  have hCnot : C ∉ (fanOut bad m s).clients := by
    rw [hclients]
    exact hnd.not_mem_erase
  refine ⟨hclients, ?_, hCnot, ?_⟩
  · intro c hc hne
    rw [fanOut_log]
    refine List.mem_append.mpr (Or.inr ?_)
    refine List.mem_map.mpr ⟨c, ?_, rfl⟩
    refine List.mem_filter.mpr ⟨hc, ?_⟩
    have : c ∉ bad := fun h => hne ((hbad c hc).mp h)
    simpa using this
  · intro msgs e he hnot heq
    rcases handleMessages_log_entry he with h | h
    · exact hnot h
    · exact hCnot (heq ▸ h)

/-- A concrete chat state for witnesses: three registered connections. -/
def wchat3 : ServerState := { initialState with clients := [0, 1, 2] }

/-- Witness for `c2_eviction_isolation`: three connections, the write to
connection `1` fails. -/
theorem c2_eviction_isolation_witness :
    wchat3.clients.Nodup ∧ (1 : Conn) ∈ wchat3.clients ∧
    (∀ c ∈ wchat3.clients, c ∈ ([1] : List Conn) ↔ c = 1) ∧
    ((fanOut [1] ⟨"alice", "hi"⟩ wchat3).clients = wchat3.clients.erase 1 ∧
     (∀ c ∈ wchat3.clients, c ≠ 1 →
        (wchat3.seq, c, (⟨"alice", "hi"⟩ : Message)) ∈ (fanOut [1] ⟨"alice", "hi"⟩ wchat3).log) ∧
     (1 : Conn) ∉ (fanOut [1] ⟨"alice", "hi"⟩ wchat3).clients ∧
     (∀ msgs e, e ∈ (handleMessages msgs (fanOut [1] ⟨"alice", "hi"⟩ wchat3)).log →
        e ∉ (fanOut [1] ⟨"alice", "hi"⟩ wchat3).log → e.2.1 ≠ 1)) :=
  ⟨by decide, by decide, by decide,
    c2_eviction_isolation [1] ⟨"alice", "hi"⟩ wchat3 1 (by decide) (by decide) (by decide)⟩

theorem pairwise_trivial {α : Type} {R : α → α → Prop} (h : ∀ a b, R a b) :
    ∀ l : List α, l.Pairwise R
  | [] => .nil
  | x :: xs => .cons (fun y _ => h x y) (pairwise_trivial h xs)

/-- One fan-out preserves the hub-log invariant: every logged delivery carries
the number of the fan-out it was made in, so tags stay below the fan-out
counter and are nondecreasing along the log. -/
theorem fanOut_log_invariant (bad : List Conn) (m : Message) (s : ServerState)
    (h1 : (s.log.map (fun e => e.1)).Pairwise (· ≤ ·))
    (h2 : ∀ e ∈ s.log, e.1 < s.seq) :
    (((fanOut bad m s).log.map (fun e => e.1)).Pairwise (· ≤ ·)) ∧
    (∀ e ∈ (fanOut bad m s).log, e.1 < (fanOut bad m s).seq) := by
  rw [fanOut_log, fanOut_seq]
  constructor
  · rw [List.map_append, List.pairwise_append]
    refine ⟨h1, ?_, ?_⟩
    · unfold fanOutWrites
      exact List.pairwise_map.mpr (List.pairwise_map.mpr
        (pairwise_trivial (fun _ _ => le_refl _) _))
    · intro a ha b hb
      rcases List.mem_map.mp ha with ⟨e, he, rfl⟩
      rcases List.mem_map.mp hb with ⟨e2, he2, rfl⟩
      rcases List.mem_map.mp he2 with ⟨c, _, rfl⟩
      exact le_of_lt (h2 e he)
  · intro e he
    rcases List.mem_append.mp he with he | he
    · exact Nat.lt_succ_of_lt (h2 e he)
    · rcases List.mem_map.mp he with ⟨c, _, rfl⟩
      exact Nat.lt_succ_self _

/-- A whole run of the hub loop preserves the hub-log invariant. -/
theorem handleMessages_log_invariant (msgs : List (Message × List Conn)) (s : ServerState)
    (h1 : (s.log.map (fun e => e.1)).Pairwise (· ≤ ·))
    (h2 : ∀ e ∈ s.log, e.1 < s.seq) :
    (((handleMessages msgs s).log.map (fun e => e.1)).Pairwise (· ≤ ·)) ∧
    (∀ e ∈ (handleMessages msgs s).log, e.1 < (handleMessages msgs s).seq) := by
  induction msgs generalizing s with
  | nil => exact ⟨h1, h2⟩
  | cons p msgs ih =>
      rw [handleMessages_cons]
      obtain ⟨g1, g2⟩ := fanOut_log_invariant p.2 p.1 s h1 h2
      exact ih (fanOut p.2 p.1 s) g1 g2

/-- Every delivery the run adds to the log carries the message with the
matching position in the inbound sequence: the entry tagged with fan-out number
`s.seq + k` delivers the `k`-th message taken off the channel. -/
theorem handleMessages_log_content (msgs : List (Message × List Conn)) (s : ServerState) :
    ∀ e ∈ (handleMessages msgs s).log,
      e ∈ s.log ∨ (s.seq ≤ e.1 ∧ (msgs.map Prod.fst)[e.1 - s.seq]? = some e.2.2) := by
  induction msgs generalizing s with
  | nil => exact fun e he => Or.inl he
  | cons p msgs ih =>
      rw [handleMessages_cons]
      intro e he
      rcases ih (fanOut p.2 p.1 s) e he with h | ⟨hle, hget⟩
      · rcases fanOut_log_entry h with h2 | ⟨_, htag, hmsg⟩
        · exact Or.inl h2
        · refine Or.inr ⟨le_of_eq htag.symm, ?_⟩
          rw [htag, Nat.sub_self, hmsg]
          simp
      · rw [fanOut_seq] at hle hget
        refine Or.inr ⟨le_trans (Nat.le_succ _) hle, ?_⟩
        have hk : e.1 - s.seq = (e.1 - (s.seq + 1)) + 1 := by omega
        rw [hk, List.map_cons, List.getElem?_cons_succ]
        exact hget

/-- C3 (FIFO delivery): the hub is a single loop that completes each fan-out
before taking the next message, so along any run from the program's initial hub
state (empty log, fan-out counter 0) the fan-out numbers in the delivery log
are nondecreasing, every entry tagged `k` delivers exactly the `k`-th message
taken off the inbound channel, and any delivery of an earlier message sits
strictly before any delivery of a later message in the log — in particular
every connection that receives two messages observes them in arrival order. -/
theorem c3_fifo_delivery (cs : List Conn) (msgs : List (Message × List Conn)) :
    (((handleMessages msgs { initialState with clients := cs }).log.map
        (fun e => e.1)).Pairwise (· ≤ ·)) ∧
    (∀ e ∈ (handleMessages msgs { initialState with clients := cs }).log,
       (msgs.map Prod.fst)[e.1]? = some e.2.2) ∧
    (∀ (k1 k2 : Nat) (e1 e2 : Nat × Conn × Message),
       (handleMessages msgs { initialState with clients := cs }).log[k1]? = some e1 →
       (handleMessages msgs { initialState with clients := cs }).log[k2]? = some e2 →
       e1.1 < e2.1 → k1 < k2) := by
  have hpair := handleMessages_log_invariant msgs { initialState with clients := cs }
    (by simp [initialState]) (by simp [initialState])
  refine ⟨hpair.1, ?_, ?_⟩
  · intro e he
    rcases handleMessages_log_content msgs _ e he with h | ⟨_, hget⟩
    · simp [initialState] at h
    · simpa using hget
  · intro k1 k2 e1 e2 h1 h2 hlt
    obtain ⟨hk1, hget1⟩ := List.getElem?_eq_some.mp h1
    obtain ⟨hk2, hget2⟩ := List.getElem?_eq_some.mp h2
    by_contra hnot
    rcases Nat.lt_or_ge k2 k1 with hgt | hge
    · have := List.pairwise_iff_get.mp hpair.1
        ⟨k2, by simpa using hk2⟩ ⟨k1, by simpa using hk1⟩ hgt
      simp only [List.get_eq_getElem, List.getElem_map, hget1, hget2] at this
      omega
    · have : k1 = k2 := le_antisymm hge (Nat.not_lt.mp hnot)
      subst this
      rw [hget1] at hget2
      rw [hget2] at hlt
      exact lt_irrefl _ hlt

/-- Unfolding the reader loop over a run of successful decodes followed by the
first failure: the decoded prefix is forwarded to the broadcast channel, then
the read-failure removal path runs.  Anything after the first failure is never
examined (the loop broke). -/
theorem readerLoop_spec (c : Conn) :
    ∀ (pre : List Message) (rest : List ReadResult) (s : ServerState),
      readerLoop c (pre.map ReadResult.ok ++ ReadResult.fail :: rest) s
        = readFailRemove c { s with broadcastQ := s.broadcastQ ++ pre }
  | [], rest, s => by simp [readerLoop, readFailRemove]
  | m :: pre, rest, s => by
      have hstep : readerLoop c ((m :: pre).map ReadResult.ok ++ ReadResult.fail :: rest) s
          = readerLoop c (pre.map ReadResult.ok ++ ReadResult.fail :: rest)
              { s with broadcastQ := s.broadcastQ ++ [m] } := rfl
      rw [hstep, readerLoop_spec c pre rest]
      simp [readFailRemove]

/-- C5 (frame of Remove): on either removal path — the hub's write-failure
path (`client.Close(); delete(clients, client)`) or the reader's read-failure
path (`delete(clients, ws); break` plus the deferred `ws.Close()`) — the entire
effect is: the connection leaves the registry and ends up closed.  The task
store, the ID counter, the inbound channel, the delivery log, the fan-out
counter, every other connection's registry membership and every other
connection's close state are all untouched. -/
theorem c5_remove_frame (c : Conn) (s : ServerState) (hnd : s.clients.Nodup) :
    ((writeFailRemove c s).tasks = s.tasks ∧
     (writeFailRemove c s).nextID = s.nextID ∧
     (writeFailRemove c s).broadcastQ = s.broadcastQ ∧
     (writeFailRemove c s).log = s.log ∧
     (writeFailRemove c s).seq = s.seq ∧
     c ∉ (writeFailRemove c s).clients ∧
     (∀ x, x ≠ c → (x ∈ (writeFailRemove c s).clients ↔ x ∈ s.clients)) ∧
     (writeFailRemove c s).isClosed c = true ∧
     (∀ x, x ≠ c → (writeFailRemove c s).closes.count x = s.closes.count x) ∧
     (∀ x, x ≠ c → (writeFailRemove c s).isClosed x = s.isClosed x)) ∧
    ((readFailRemove c s).tasks = s.tasks ∧
     (readFailRemove c s).nextID = s.nextID ∧
     (readFailRemove c s).broadcastQ = s.broadcastQ ∧
     (readFailRemove c s).log = s.log ∧
     (readFailRemove c s).seq = s.seq ∧
     c ∉ (readFailRemove c s).clients ∧
     (∀ x, x ≠ c → (x ∈ (readFailRemove c s).clients ↔ x ∈ s.clients)) ∧
     (readFailRemove c s).isClosed c = true ∧
     (∀ x, x ≠ c → (readFailRemove c s).closes.count x = s.closes.count x) ∧
     (∀ x, x ≠ c → (readFailRemove c s).isClosed x = s.isClosed x)) := by
  have hmem : c ∉ s.clients.erase c := hnd.not_mem_erase
  have hmem2 : ∀ x, x ≠ c → (x ∈ s.clients.erase c ↔ x ∈ s.clients) :=
    fun x hx => List.mem_erase_of_ne hx
  have hclosed : (0 < (s.closes ++ [c]).count c) := by
    simp [List.count_append]
  have hcount : ∀ x, x ≠ c → (s.closes ++ [c]).count x = s.closes.count x := by
    intro x hx
    simp [List.count_append, List.count_singleton', hx, Ne.symm hx]
  refine ⟨⟨rfl, rfl, rfl, rfl, rfl, hmem, hmem2, ?_, hcount, ?_⟩,
          ⟨rfl, rfl, rfl, rfl, rfl, hmem, hmem2, ?_, hcount, ?_⟩⟩
  · simp [ServerState.isClosed, writeFailRemove, List.count_append]
  · intro x hx
    simp only [ServerState.isClosed, writeFailRemove]
    exact congrArg (fun n => decide (0 < n)) (hcount x hx)
  · simp [ServerState.isClosed, readFailRemove, List.count_append]
  · intro x hx
    simp only [ServerState.isClosed, readFailRemove]
    exact congrArg (fun n => decide (0 < n)) (hcount x hx)

/-- Witness for `c5_remove_frame` at one registered connection. -/
theorem c5_remove_frame_witness :
    ({ initialState with clients := [0] } : ServerState).clients.Nodup ∧
    ((writeFailRemove 0 { initialState with clients := [0] }).isClosed 0 = true ∧
     (readFailRemove 0 { initialState with clients := [0] }).isClosed 0 = true ∧
     0 ∉ (writeFailRemove 0 { initialState with clients := [0] }).clients ∧
     (writeFailRemove 0 { initialState with clients := [0] }).tasks
        = ({ initialState with clients := [0] } : ServerState).tasks) :=
  ⟨by decide,
   (c5_remove_frame 0 { initialState with clients := [0] } (by decide)).1.2.2.2.2.2.2.2.1,
   (c5_remove_frame 0 { initialState with clients := [0] } (by decide)).2.2.2.2.2.2.2.2.1,
   (c5_remove_frame 0 { initialState with clients := [0] } (by decide)).1.2.2.2.2.2.1,
   (c5_remove_frame 0 { initialState with clients := [0] } (by decide)).1.1⟩

/-- C4 counterexample: with one registered connection `0`, run the hub's
write-failure path on it (one `Close` plus delete) and then the reader's
read-failure path (delete of the now absent key plus the deferred `Close`).
The claim says the underlying connection is closed exactly once; in fact two
`Close` calls are issued. -/
theorem c4_counterexample :
    ¬((readerLoop 0 [ReadResult.fail] (fanOut [0] ⟨"alice", "hi"⟩
        { initialState with clients := [0] })).closes.count 0 = 1) := by
  decide

/-- C4 amended: deleting an absent connection from the registry is a no-op (Go
map delete never fails), and the registry deletion itself is idempotent; but
when both the write-failure path and the read-failure path run for the same
connection, the underlying connection is closed twice — once by the hub before
its delete and once by the reader's deferred close — not once. -/
theorem c4_idempotent_removal_amended (c : Conn) (m : Message) (s : ServerState)
    (hnd : s.clients.Nodup) (hc : c ∈ s.clients) :
    (∀ x, x ∉ s.clients → s.clients.erase x = s.clients) ∧
    (readerLoop c [ReadResult.fail] (fanOut [c] m s)).closes.count c
      = s.closes.count c + 2 := by
  refine ⟨fun x hx => List.erase_of_not_mem hx, ?_⟩
  have hfilter : s.clients.filter (fun x => ([c] : List Conn).contains x) = [c] := by
    refine filter_single_of_nodup hnd hc (fun x _ => ?_)
    simp
  have h1 : (fanOut [c] m s).closes = s.closes ++ [c] := by
    rw [fanOut_closes, hfilter]
  have h2 : (readerLoop c [ReadResult.fail] (fanOut [c] m s)).closes
      = (fanOut [c] m s).closes ++ [c] := rfl
  rw [h2, h1]
  simp [List.count_append]

/-- Witness for `c4_idempotent_removal_amended` at one registered
connection. -/
theorem c4_idempotent_removal_amended_witness :
    ({ initialState with clients := [0] } : ServerState).clients.Nodup ∧
    (0 : Conn) ∈ ({ initialState with clients := [0] } : ServerState).clients ∧
    ((∀ x, x ∉ ({ initialState with clients := [0] } : ServerState).clients →
        ({ initialState with clients := [0] } : ServerState).clients.erase x
          = ({ initialState with clients := [0] } : ServerState).clients) ∧
     (readerLoop 0 [ReadResult.fail] (fanOut [0] ⟨"alice", "hi"⟩
        { initialState with clients := [0] })).closes.count 0
       = ({ initialState with clients := [0] } : ServerState).closes.count 0 + 2) :=
  ⟨by decide, by decide,
    c4_idempotent_removal_amended 0 ⟨"alice", "hi"⟩
      { initialState with clients := [0] } (by decide) (by decide)⟩

/-- C6 (reader failure semantics): a reader whose `ReadJSON` outcomes are a
run of successful decodes followed by a failure forwards exactly the decoded
prefix to the broadcast channel (never the failed read), then removes its own
connection from the registry and exits after the deferred close; it never
retries (the outcomes after the failure are irrelevant to the result), never
re-adds the connection, and touches no other connection and no other program
state. -/
theorem c6_reader_failure (c : Conn) (pre : List Message) (rest : List ReadResult)
    (s : ServerState) :
    readerLoop c (pre.map ReadResult.ok ++ ReadResult.fail :: rest) s
      = readerLoop c (pre.map ReadResult.ok ++ [ReadResult.fail]) s ∧
    (readerLoop c (pre.map ReadResult.ok ++ ReadResult.fail :: rest) s).broadcastQ
      = s.broadcastQ ++ pre ∧
    (readerLoop c (pre.map ReadResult.ok ++ ReadResult.fail :: rest) s).clients
      = s.clients.erase c ∧
    (∀ x, x ≠ c →
      (x ∈ (readerLoop c (pre.map ReadResult.ok ++ ReadResult.fail :: rest) s).clients
        ↔ x ∈ s.clients)) ∧
    (readerLoop c (pre.map ReadResult.ok ++ ReadResult.fail :: rest) s).closes
      = s.closes ++ [c] ∧
    (readerLoop c (pre.map ReadResult.ok ++ ReadResult.fail :: rest) s).tasks = s.tasks ∧
    (readerLoop c (pre.map ReadResult.ok ++ ReadResult.fail :: rest) s).nextID = s.nextID ∧
    (readerLoop c (pre.map ReadResult.ok ++ ReadResult.fail :: rest) s).log = s.log ∧
    (readerLoop c (pre.map ReadResult.ok ++ ReadResult.fail :: rest) s).seq = s.seq := by
  rw [readerLoop_spec, readerLoop_spec]
  exact ⟨rfl, rfl, rfl, fun x hx => List.mem_erase_of_ne hx, rfl, rfl, rfl, rfl, rfl⟩

/-- C7 counterexample: with connections `0` (= A, the sender), `1` (= B) and
`2` (= C) registered and A publishing `{"username":"alice","content":"hi"}`,
the claim says B and C each receive one copy and A receives none.  The fan-out
loop iterates every key of the `clients` map with no sender exclusion, so A
receives a copy too: the "A does not receive its own message back" conjunct is
false. -/
theorem c7_counterexample :
    ¬(((fanOut [] ⟨"alice", "hi"⟩ wchat3).log.countP (fun e => e.2.1 == 1) = 1) ∧
      ((fanOut [] ⟨"alice", "hi"⟩ wchat3).log.countP (fun e => e.2.1 == 2) = 1) ∧
      ((fanOut [] ⟨"alice", "hi"⟩ wchat3).log.countP (fun e => e.2.1 == 0) = 0)) := by
  decide

/-- C7 amended: with A (connection `0`), B (`1`) and C (`2`) registered and A
publishing `{"username":"alice","content":"hi"}`, B and C each receive exactly
one copy — and so does A: the source echoes the message back to the sender,
because the fan-out addresses every registered connection with no sender
exclusion. -/
theorem c7_sender_echo :
    (fanOut [] ⟨"alice", "hi"⟩ wchat3).log
      = [(0, 0, ⟨"alice", "hi"⟩), (0, 1, ⟨"alice", "hi"⟩), (0, 2, ⟨"alice", "hi"⟩)] ∧
    ((fanOut [] ⟨"alice", "hi"⟩ wchat3).log.countP (fun e => e.2.1 == 0) = 1) ∧
    ((fanOut [] ⟨"alice", "hi"⟩ wchat3).log.countP (fun e => e.2.1 == 1) = 1) ∧
    ((fanOut [] ⟨"alice", "hi"⟩ wchat3).log.countP (fun e => e.2.1 == 2) = 1) := by
  decide

/-- C8: evaluation of the synchronization model read off the source at the
failing accesses: none of the four registry accesses (`clients[ws] = true`,
the two `delete(clients, ...)` paths, `for client := range clients`) holds any
mutex, while every task-store handler holds `tasksMu` — the `clients` map is
mutated and iterated from concurrent goroutines with no synchronization, the
data race the spec itself flags. -/
theorem c8_registry_unsynchronized :
    locksHeld SharedAccess.registryAdd = [] ∧
    locksHeld SharedAccess.registryRemoveOnReadError = [] ∧
    locksHeld SharedAccess.registryRemoveOnWriteError = [] ∧
    locksHeld SharedAccess.registryIterate = [] ∧
    ¬synchronized SharedAccess.registryAdd ∧
    ¬synchronized SharedAccess.registryRemoveOnReadError ∧
    ¬synchronized SharedAccess.registryRemoveOnWriteError ∧
    ¬synchronized SharedAccess.registryIterate ∧
    locksHeld SharedAccess.taskCreate = [Mutex.tasksMu] ∧
    locksHeld SharedAccess.taskUpdate = [Mutex.tasksMu] := by
  refine ⟨rfl, rfl, rfl, rfl, ?_, ?_, ?_, ?_, rfl, rfl⟩ <;>
    simp [synchronized, locksHeld]

/-- The first-match update: walking past a duplicate-free ID-miss run of tasks,
`updateTask` rewrites exactly the first task whose ID matches and keeps every
other element of the list unchanged. -/
theorem updateTask_append (id : Int) (upd : Task) :
    ∀ (pre : List Task) (t : Task) (post : List Task),
      (∀ t2 ∈ pre, t2.id ≠ id) → t.id = id →
      updateTask id upd (pre ++ t :: post) = some (pre ++ updateTaskFields t upd :: post)
  | [], t, post, _, ht => by simp [updateTask, ht]
  | p :: pre, t, post, hpre, ht => by
      have hp : ¬p.id = id := hpre p (List.mem_cons_self _ _)
      have := updateTask_append id upd pre t post
        (fun t2 h2 => hpre t2 (List.mem_cons_of_mem _ h2)) ht
      simp [updateTask, hp, this]

/-- C9 (partial update): for a task list in which the first task with the
requested ID is `t`, `updateTask` succeeds and replaces exactly `t` by its
field-wise update — every non-empty field of the request body overwrites the
stored field, every empty field leaves the stored value unchanged, the ID is
never changed, and every other task in the store is untouched (the rest of the
list is returned as-is). -/
theorem c9_update_task_partial (pre post : List Task) (t upd : Task) (id : Int)
    (hpre : ∀ t2 ∈ pre, t2.id ≠ id) (ht : t.id = id) :
    updateTask id upd (pre ++ t :: post) = some (pre ++ updateTaskFields t upd :: post) ∧
    (updateTaskFields t upd).id = t.id ∧
    (updateTaskFields t upd).title = (if upd.title = "" then t.title else upd.title) ∧
    (updateTaskFields t upd).description
      = (if upd.description = "" then t.description else upd.description) ∧
    (updateTaskFields t upd).status = (if upd.status = "" then t.status else upd.status) := by
  refine ⟨updateTask_append id upd pre t post hpre ht, rfl, ?_, ?_, ?_⟩ <;>
    simp only [updateTaskFields] <;>
    split <;> simp_all

/-- Witness for `c9_update_task_partial`: a three-task store where the request
updates task `2`, supplying a new title and status but an empty description. -/
theorem c9_update_task_partial_witness :
    (∀ t2 ∈ [(⟨1, "a", "b", "pending"⟩ : Task)], t2.id ≠ 2) ∧
    (⟨2, "old", "keep", "pending"⟩ : Task).id = 2 ∧
    (updateTask 2 ⟨0, "new", "", "completed"⟩
        ([⟨1, "a", "b", "pending"⟩] ++ (⟨2, "old", "keep", "pending"⟩ : Task)
          :: [⟨3, "c", "d", "pending"⟩])
      = some ([⟨1, "a", "b", "pending"⟩]
          ++ updateTaskFields ⟨2, "old", "keep", "pending"⟩ ⟨0, "new", "", "completed"⟩
          :: [⟨3, "c", "d", "pending"⟩]) ∧
     (updateTaskFields (⟨2, "old", "keep", "pending"⟩ : Task)
        ⟨0, "new", "", "completed"⟩).id = (⟨2, "old", "keep", "pending"⟩ : Task).id ∧
     (updateTaskFields (⟨2, "old", "keep", "pending"⟩ : Task)
        ⟨0, "new", "", "completed"⟩).title
       = (if ("new" : String) = "" then "old" else "new") ∧
     (updateTaskFields (⟨2, "old", "keep", "pending"⟩ : Task)
        ⟨0, "new", "", "completed"⟩).description
       = (if ("" : String) = "" then "keep" else "") ∧
     (updateTaskFields (⟨2, "old", "keep", "pending"⟩ : Task)
        ⟨0, "new", "", "completed"⟩).status
       = (if ("completed" : String) = "" then "pending" else "completed")) :=
  ⟨by decide, rfl,
    c9_update_task_partial [⟨1, "a", "b", "pending"⟩] [⟨3, "c", "d", "pending"⟩]
      ⟨2, "old", "keep", "pending"⟩ ⟨0, "new", "", "completed"⟩ 2 (by decide) rfl⟩

/-- `wrapInt64` always lands in the 64-bit signed range. -/
theorem wrapInt64_range (n : Int) : -2 ^ 63 ≤ wrapInt64 n ∧ wrapInt64 n < 2 ^ 63 := by
  unfold wrapInt64
  have h1 : (0 : Int) ≤ (n + 2 ^ 63) % 2 ^ 64 := Int.emod_nonneg _ (by norm_num)
  have h2 : (n + 2 ^ 63) % 2 ^ 64 < 2 ^ 64 := Int.emod_lt_of_pos _ (by norm_num)
  constructor <;> omega

/-- No wrap happens while the value stays in the 64-bit signed range. -/
theorem wrapInt64_eq_self (n : Int) (hlo : -2 ^ 63 ≤ n) (hhi : n < 2 ^ 63) :
    wrapInt64 n = n := by
  unfold wrapInt64
  rw [Int.emod_eq_of_lt (by omega) (by omega)]
  omega

/-- Field-level description of `createTask`: the stored task carries the old
counter value as ID, the other request fields unchanged except an empty status
defaults to `"pending"`; the counter advances by one with 64-bit wrap-around
and the task is appended. -/
theorem createTask_fields (t : Task) (s : ServerState) :
    (createTask t s).2.id = s.nextID ∧
    (createTask t s).2.status = (if t.status = "" then "pending" else t.status) ∧
    (createTask t s).2.title = t.title ∧
    (createTask t s).2.description = t.description ∧
    (createTask t s).1.nextID = wrapInt64 (s.nextID + 1) ∧
    (createTask t s).1.tasks = s.tasks ++ [(createTask t s).2] := by
  unfold createTask
  by_cases h : t.status = "" <;> simp [h]

/-- Invariant of the task store: every stored ID is below the counter and the
stored IDs are pairwise distinct. -/
def TaskStoreInv (s : ServerState) : Prop :=
  (∀ t ∈ s.tasks, t.id < s.nextID) ∧ (s.tasks.map Task.id).Nodup

theorem removeFirstTask_sublist (id : Int) :
    ∀ l : List Task, List.Sublist (removeFirstTask id l) l
  | [] => List.Sublist.refl _
  | t :: rest => by
      unfold removeFirstTask
      split
      · exact List.sublist_cons_self t rest
      · exact List.Sublist.cons₂ t (removeFirstTask_sublist id rest)

/-- A create step that does not wrap the counter preserves the store
invariant. -/
theorem createTask_inv (t : Task) (s : ServerState) (h : TaskStoreInv s)
    (hnext : (createTask t s).1.nextID = s.nextID + 1) :
    TaskStoreInv (createTask t s).1 := by
  obtain ⟨hlt, hnd⟩ := h
  obtain ⟨hid, _, _, _, _, htasks⟩ := createTask_fields t s
  constructor
  · intro t2 ht2
    rw [htasks] at ht2
    rw [hnext]
    rcases List.mem_append.mp ht2 with h2 | h2
    · exact lt_trans (hlt t2 h2) (by omega)
    · rcases List.mem_singleton.mp h2 with rfl
      rw [hid]
      omega
  · rw [htasks, List.map_append, List.nodup_append]
    refine ⟨hnd, by simp, ?_⟩
    intro x hx hmem
    rcases List.mem_map.mp hx with ⟨t2, ht2, rfl⟩
    simp only [List.map_cons, List.map_nil, List.mem_singleton] at hmem
    rw [hid] at hmem
    have := hlt t2 ht2
    omega

/-- A delete step preserves the store invariant. -/
theorem removeTaskOp_inv (id : Int) (s : ServerState) (h : TaskStoreInv s) :
    TaskStoreInv (applyTaskOp s (.remove id)) := by
  obtain ⟨hlt, hnd⟩ := h
  refine ⟨fun t2 ht2 => hlt t2 ((removeFirstTask_sublist id s.tasks).mem ht2), ?_⟩
  exact hnd.sublist ((removeFirstTask_sublist id s.tasks).map Task.id)

/-- Along any run in which the counter never wraps (the creates fit below
`2^63 - 1`), the assigned IDs are strictly increasing, all at least the
starting counter value, and the store invariant is maintained. -/
theorem taskRun_nowrap_spec :
    ∀ (ops : List TaskOp) (s : ServerState),
      TaskStoreInv s → -2 ^ 63 ≤ s.nextID →
      s.nextID + (createCount ops : Int) ≤ 2 ^ 63 - 1 →
      (assignedIDs ops s).Chain' (· < ·) ∧
      (∀ i ∈ assignedIDs ops s, s.nextID ≤ i) ∧
      TaskStoreInv (runTaskOps ops s)
  | [], s => by
      intro hinv _ _
      exact ⟨by simp [assignedIDs], by simp [assignedIDs], hinv⟩
  | .create t :: rest, s => by
      intro hinv hlo hcnt
      rw [createCount] at hcnt
      obtain ⟨hid, _, _, _, hnext, _⟩ := createTask_fields t s
      have hnext1 : (createTask t s).1.nextID = s.nextID + 1 := by
        rw [hnext]
        exact wrapInt64_eq_self _ (by omega) (by omega)
      have hinv1 : TaskStoreInv (createTask t s).1 := createTask_inv t s hinv hnext1
      obtain ⟨ihc, ihb, ihinv⟩ := taskRun_nowrap_spec rest (createTask t s).1 hinv1
        (by rw [hnext1]; omega) (by rw [hnext1]; omega)
      rw [hnext1] at ihb
      refine ⟨?_, ?_, ihinv⟩
      · rw [assignedIDs, List.chain'_cons']
        refine ⟨?_, ihc⟩
        intro b hb
        have hmem : b ∈ assignedIDs rest (createTask t s).1 := List.mem_of_mem_head? hb
        have := ihb b hmem
        rw [hid]
        omega
      · intro i hi
        rw [assignedIDs] at hi
        rcases List.mem_cons.mp hi with rfl | hi
        · rw [hid]
        · have := ihb i hi
          omega
  | .remove id :: rest, s => by
      intro hinv hlo hcnt
      rw [createCount] at hcnt
      obtain ⟨ihc, ihb, ihinv⟩ := taskRun_nowrap_spec rest (applyTaskOp s (.remove id))
        (removeTaskOp_inv id s hinv) hlo hcnt
      exact ⟨ihc, fun i hi => ihb i hi, ihinv⟩

/-- One create contributes exactly one assigned ID. -/
theorem assignedIDs_length_replicate (t : Task) :
    ∀ (n : Nat) (s : ServerState),
      (assignedIDs (List.replicate n (TaskOp.create t)) s).length = n
  | 0, _ => rfl
  | n + 1, s => by
      rw [List.replicate_succ]
      have := assignedIDs_length_replicate t n (createTask t s).1
      simp [assignedIDs, this]

/-- Every ID a run assigns lies in the 64-bit signed range, as long as the
counter starts there (which `wrapInt64` maintains from then on). -/
theorem assignedIDs_range :
    ∀ (ops : List TaskOp) (s : ServerState),
      -2 ^ 63 ≤ s.nextID → s.nextID < 2 ^ 63 →
      ∀ i ∈ assignedIDs ops s, -2 ^ 63 ≤ i ∧ i < 2 ^ 63
  | [], _ => by
      intro _ _ i hi
      simp [assignedIDs] at hi
  | .create t :: rest, s => by
      intro hlo hhi i hi
      obtain ⟨hid, _, _, _, hnext, _⟩ := createTask_fields t s
      rw [assignedIDs] at hi
      rcases List.mem_cons.mp hi with rfl | hi
      · rw [hid]
        exact ⟨hlo, hhi⟩
      · have hrange := wrapInt64_range (s.nextID + 1)
        exact assignedIDs_range rest (createTask t s).1
          (by rw [hnext]; exact hrange.1) (by rw [hnext]; exact hrange.2) i hi
  | .remove id :: rest, s => by
      intro hlo hhi i hi
      rw [assignedIDs] at hi
      exact assignedIDs_range rest (applyTaskOp s (.remove id)) hlo hhi i hi

/-- A concrete run long enough to wrap the 64-bit counter: `2^64 + 1` create
requests. -/
def overflowOps : List TaskOp :=
  List.replicate (2 ^ 64 + 1) (TaskOp.create ⟨0, "", "", ""⟩)

/-- C10 counterexample: across the concrete sequence of `2^64 + 1` `createTask`
calls from the initial state, the assigned IDs are not strictly increasing and
the stored IDs are not pairwise distinct: `nextID++` is Go 64-bit `int`
arithmetic, so the counter wraps and revisits values.  (Pigeonhole: a strictly
increasing — hence duplicate-free — list of `2^64 + 1` IDs cannot fit in the
`2^64`-element signed 64-bit range that every assigned ID lies in.) -/
theorem c10_counterexample :
    ¬((assignedIDs overflowOps initialState).Chain' (· < ·) ∧
      ((runTaskOps overflowOps initialState).tasks.map Task.id).Nodup) := by
  rintro ⟨hchain, -⟩
  have hnd : (assignedIDs overflowOps initialState).Nodup :=
    (List.chain'_iff_pairwise.mp hchain).imp (fun hab => ne_of_lt hab)
  have hlen : (assignedIDs overflowOps initialState).length = 2 ^ 64 + 1 :=
    assignedIDs_length_replicate _ _ _
  have hrange := assignedIDs_range overflowOps initialState
    (by norm_num [initialState]) (by norm_num [initialState])
  have hsub : (assignedIDs overflowOps initialState).toFinset ⊆
      Finset.Icc (-2 ^ 63 : Int) (2 ^ 63 - 1) := by
    intro x hx
    have hx2 := hrange x (List.mem_toFinset.mp hx)
    rw [Finset.mem_Icc]
    omega
  have hIcc : (Finset.Icc (-2 ^ 63 : Int) (2 ^ 63 - 1)).card = 2 ^ 64 := by
    rw [Int.card_Icc]
    norm_num
    rfl
  have hcard := Finset.card_le_card hsub
  rw [List.toFinset_card_of_nodup hnd, hlen, hIcc] at hcard
  omega

/-- C10 amended: `createTask` stores the current `nextID` as the new task's ID
and then increments the counter with 64-bit wrap-around, and defaults the
status to `"pending"` exactly when the request supplied an empty status;
consequently, over any sequence of create and delete requests from the
program's initial state in which the counter never wraps — at most `2^63 - 2`
creates — the IDs assigned by the creates are strictly increasing and the
store always holds pairwise-distinct IDs.  (With enough creates to wrap the
counter this fails, see the counterexample.) -/
theorem c10_create_task_ids_amended :
    (∀ (t : Task) (s : ServerState),
       (createTask t s).2.id = s.nextID ∧
       (createTask t s).1.nextID = wrapInt64 (s.nextID + 1) ∧
       (createTask t s).2.status = (if t.status = "" then "pending" else t.status) ∧
       (createTask t s).1.tasks = s.tasks ++ [(createTask t s).2]) ∧
    (∀ ops : List TaskOp,
       createCount ops ≤ 2 ^ 63 - 2 →
       (assignedIDs ops initialState).Chain' (· < ·) ∧
       ((runTaskOps ops initialState).tasks.map Task.id).Nodup) := by
  constructor
  · intro t s
    obtain ⟨h1, h2, _, _, h5, h6⟩ := createTask_fields t s
    exact ⟨h1, h5, h2, h6⟩
  · intro ops hcnt
    have hspec := taskRun_nowrap_spec ops initialState
      (by simp [TaskStoreInv, initialState]) (by norm_num [initialState]) ?_
    · exact ⟨hspec.1, hspec.2.2.2⟩
    · have : initialState.nextID = 1 := rfl
      rw [this]
      omega

/-- Witness for `c10_create_task_ids_amended`: two creates and one delete, far
below the wrap bound. -/
theorem c10_create_task_ids_amended_witness :
    createCount [TaskOp.create ⟨0, "a", "b", ""⟩, TaskOp.create ⟨0, "c", "d", "done"⟩,
        TaskOp.remove 1] ≤ 2 ^ 63 - 2 ∧
    ((assignedIDs [TaskOp.create ⟨0, "a", "b", ""⟩, TaskOp.create ⟨0, "c", "d", "done"⟩,
        TaskOp.remove 1] initialState).Chain' (· < ·) ∧
     ((runTaskOps [TaskOp.create ⟨0, "a", "b", ""⟩, TaskOp.create ⟨0, "c", "d", "done"⟩,
        TaskOp.remove 1] initialState).tasks.map Task.id).Nodup) :=
  ⟨by norm_num [createCount],
   c10_create_task_ids_amended.2
     [TaskOp.create ⟨0, "a", "b", ""⟩, TaskOp.create ⟨0, "c", "d", "done"⟩,
       TaskOp.remove 1] (by norm_num [createCount])⟩

end GoChat
